import Mathlib

/-!
Verification of the datapyground query engine core against its design
specification.

The definitions below are a shallow embedding of the Python sources:

* `src/datapyground/sql/tokenize.py` — the regex tokenizer (token
  specification, token classes, `Tokenizer.tokenize`),
* `src/datapyground/sql/parser.py` — `Parser.parse` statement dispatch,
* `src/datapyground/sql/planner.py` — `SQLQueryPlanner.FUNCTIONS_MAP`,
  `_parse_expression`, `_parse_identifier`, `_parse_pagination`,
* `src/datapyground/compute/pagination.py` — `PaginateNode`,
* `src/datapyground/compute/sorting.py` — `SortNode.batches` and
  `ExternalSortKey.__lt__`,
* `src/datapyground/compute/aggregate.py` — `AggregateNode` single and
  multi key aggregation with `SumAggregation`,
* `src/datapyground/compute/join.py` — `InnnerJoinNode.batches`.

Machine integers of the source are modelled as `Int`/`Nat` (Python ints are
unbounded, so no wrap-around is modelled), nullable columnar scalars as
`Option Int`, record batches as lists of rows, and fallible code as
`Except`.  Python dictionaries (which preserve insertion order) are
modelled as association lists updated in insertion order.
-/

namespace DataPyground

/-! ## Tokenizer (`sql/tokenize.py`) -/

/-- Word characters of the `\b` regex boundary (ASCII letters, digits and
underscore), used by the `TEXT_OPERATOR` pattern. -/
def isWordChar (c : Char) : Bool :=
  c.isAlphanum || c = '_'

/-- Case-insensitive literal prefix match (the tokenization regex is
compiled with `re.IGNORECASE`).  Returns the matched input characters and
the remaining input. -/
def matchCI : List Char → List Char → Option (List Char × List Char)
  | [], s => some ([], s)
  | _ :: _, [] => none
  | p :: ps, c :: cs =>
    if c.toUpper = p.toUpper then
      match matchCI ps cs with
      | some (m, rest) => some (c :: m, rest)
      | none => none
    else none

/-- First alternative of a regex alternation of literal words that matches
at the current position. -/
def tryPatterns : List String → List Char → Option (List Char × List Char)
  | [], _ => none
  | p :: ps, s =>
    match matchCI p.data s with
    | some r => some r
    | none => tryPatterns ps s

/-- The `KEYWORD` alternation of `GENERATE_TOKEN_SPECIFICATION`, in source
order:
`SELECT|INSERT|UPDATE|FROM|WHERE|GROUP BY|ORDER BY|ASC|DESC|LIMIT|OFFSET|AS`. -/
def KEYWORDS : List String :=
  ["SELECT", "INSERT", "UPDATE", "FROM", "WHERE", "GROUP BY", "ORDER BY",
   "ASC", "DESC", "LIMIT", "OFFSET", "AS"]

/-- The `TEXT_OPERATOR` alternation `\b(AND|OR|NOT)\b`. -/
def TEXT_OPERATORS : List String := ["AND", "OR", "NOT"]

/-- The `OPERATOR` alternation `<>|<=|>=|!=|==|=|<|>|\+|-|\*|/`, in source
order. -/
def OPERATORS : List String :=
  ["<>", "<=", ">=", "!=", "==", "=", "<", ">", "+", "-", "*", "/"]

/-- The `\b` boundary on the left of a `TEXT_OPERATOR` match: start of
input, or the previous character is not a word character (the text
operators all begin with a word character). -/
def boundaryBefore : Option Char → Bool
  | none => true
  | some c => !isWordChar c

/-- The `\b` boundary on the right of a `TEXT_OPERATOR` match: end of
input, or the next character is not a word character. -/
def boundaryAfter : List Char → Bool
  | [] => true
  | c :: _ => !isWordChar c

/-- The `TEXT_OPERATOR` pattern: first of `AND`, `OR`, `NOT` matching at
the position with word boundaries on both sides.  `prev` is the character
immediately before the match position, if any. -/
def tryTextOperator (prev : Option Char) : List String → List Char →
    Option (List Char × List Char)
  | [], _ => none
  | p :: ps, s =>
    match matchCI p.data s with
    | some (m, rest) =>
      if boundaryBefore prev && boundaryAfter rest then some (m, rest)
      else tryTextOperator prev ps s
    | none => tryTextOperator prev ps s

/-- First character class of the `IDENTIFIER` pattern `[A-Za-z_]`. -/
def isIdentStart (c : Char) : Bool :=
  c.isAlpha || c = '_'

/-- Continuation character class of `IDENTIFIER`: `[A-Za-z0-9_.]`. -/
def isIdentChar (c : Char) : Bool :=
  c.isAlphanum || c = '_' || c = '.'

/-- The `IDENTIFIER` pattern `[A-Za-z_][A-Za-z0-9_.]*` (greedy). -/
def tryIdentifier : List Char → Option (List Char × List Char)
  | [] => none
  | c :: cs =>
    if isIdentStart c then
      let (m, rest) := cs.span isIdentChar
      some (c :: m, rest)
    else none

/-- The single-quote character. -/
def squote : Char := Char.ofNat 39

/-- The double-quote character. -/
def dquote : Char := Char.ofNat 34

/-- One quoted-string alternative of the `LITERAL` pattern, for quote
character `q`: `q [^q]* q`.  The token value keeps the quotes. -/
def tryQuoted (q : Char) : List Char → Option (List Char × List Char)
  | [] => none
  | c :: cs =>
    if c = q then
      let (body, rest) := cs.span (fun x => x ≠ q)
      match rest with
      | r :: rest2 => if r = q then some (c :: (body ++ [r]), rest2) else none
      | [] => none
    else none

/-- The numeric alternative of the `LITERAL` pattern, `\d+(\.\d+)?`: a
greedy digit run, optionally followed by a dot and another digit run (the
optional group backtracks to empty when no digit follows the dot). -/
def tryNumber (s : List Char) : Option (List Char × List Char) :=
  match s.span Char.isDigit with
  | ([], _) => none
  | (ds, rest) =>
    match rest with
    | c :: rest2 =>
      if c = '.' then
        match rest2.span Char.isDigit with
        | ([], _) => some (ds, rest)
        | (ds2, rest3) => some (ds ++ c :: ds2, rest3)
      else some (ds, rest)
    | [] => some (ds, rest)

/-- The `LITERAL` pattern `\'[^\']*\'|\"[^\"]*\"|\d+(\.\d+)?`, trying the
alternatives in source order. -/
def tryLiteralPattern (s : List Char) : Option (List Char × List Char) :=
  match tryQuoted squote s with
  | some r => some r
  | none =>
    match tryQuoted dquote s with
    | some r => some r
    | none => tryNumber s

/-- The `PUNCTUATION` pattern `,|\(|\)|;`. -/
def tryPunctuation : List Char → Option (List Char × List Char)
  | [] => none
  | c :: cs =>
    if c = ',' || c = '(' || c = ')' || c = ';' then some ([c], cs) else none

/-- The `SKIP` pattern `\s+` (greedy whitespace run). -/
def trySkip (s : List Char) : Option (List Char × List Char) :=
  match s.span Char.isWhitespace with
  | ([], _) => none
  | (m, rest) => some (m, rest)

/-- The token classes of `sql/tokenize.py`.  Each constructor is one of
the `Token` subclasses, carrying the `value` attribute; `eof` is
`EOFToken` (whose value is hardcoded to `EOF`). -/
inductive Token where
  | select (value : String)
  | insert (value : String)
  | update (value : String)
  | fromKw (value : String)
  | whereKw (value : String)
  | groupBy (value : String)
  | orderBy (value : String)
  | limit (value : String)
  | offset (value : String)
  | sortingOrder (value : String)
  | aliasKw (value : String)
  | keyword (value : String)
  | identifier (value : String)
  | operator (value : String)
  | literal (value : String)
  | punctuation (value : String)
  | eof
  deriving DecidableEq, Repr

/-- The `value` attribute of a token. -/
def Token.value : Token → String
  | .select v | .insert v | .update v | .fromKw v | .whereKw v
  | .groupBy v | .orderBy v | .limit v | .offset v | .sortingOrder v
  | .aliasKw v | .keyword v | .identifier v | .operator v | .literal v
  | .punctuation v => v
  | .eof => "EOF"

/-- Uppercasing of a string (`str.upper` on the ASCII inputs at hand). -/
def upperStr (s : String) : String :=
  String.mk (s.data.map Char.toUpper)

/-- Construction of a keyword token: `keyword_token_classes.get(value.upper(),
KeywordToken)` followed by `KeywordToken.__init__`, which uppercases the
value.  `ASC` and `DESC` both map to `SortingOrderToken`; `AS` maps to
`AliasToken`; a keyword missing from the mapping would fall back to the
base `KeywordToken`. -/
def mkKeywordToken (v : String) : Token :=
  let u := upperStr v
  if u = "SELECT" then .select u
  else if u = "INSERT" then .insert u
  else if u = "UPDATE" then .update u
  else if u = "FROM" then .fromKw u
  else if u = "WHERE" then .whereKw u
  else if u = "GROUP BY" then .groupBy u
  else if u = "ORDER BY" then .orderBy u
  else if u = "LIMIT" then .limit u
  else if u = "OFFSET" then .offset u
  else if u = "ASC" then .sortingOrder u
  else if u = "DESC" then .sortingOrder u
  else if u = "AS" then .aliasKw u
  else .keyword u

/-- One step of `Tokenizer.tokenize`: the combined regex tried at the
current position, with the alternatives in specification order (`KEYWORD`,
`TEXT_OPERATOR`, `OPERATOR`, `IDENTIFIER`, `LITERAL`, `PUNCTUATION`,
`SKIP`, `MISMATCH`).  Returns the produced token (none for `SKIP`), the
matched characters and the remaining input; `MISMATCH` raises
`SQLTokenizeException`. -/
def scanOne (prev : Option Char) (s : List Char) :
    Except String (Option Token × List Char × List Char) :=
  match tryPatterns KEYWORDS s with
  | some (m, rest) => .ok (some (mkKeywordToken (String.mk m)), m, rest)
  | none =>
  match tryTextOperator prev TEXT_OPERATORS s with
  | some (m, rest) => .ok (some (.operator (upperStr (String.mk m))), m, rest)
  | none =>
  match tryPatterns OPERATORS s with
  | some (m, rest) => .ok (some (.operator (upperStr (String.mk m))), m, rest)
  | none =>
  match tryIdentifier s with
  | some (m, rest) => .ok (some (.identifier (String.mk m)), m, rest)
  | none =>
  match tryLiteralPattern s with
  | some (m, rest) => .ok (some (.literal (String.mk m)), m, rest)
  | none =>
  match tryPunctuation s with
  | some (m, rest) => .ok (some (.punctuation (String.mk m)), m, rest)
  | none =>
  match trySkip s with
  | some (m, rest) => .ok (none, m, rest)
  | none => .error ("Unexpected character " ++ String.mk (s.take 1))

/-- The matching loop of `Tokenizer.tokenize`.  `prev` is the character
preceding the current position (for the `\b` boundary of
`TEXT_OPERATOR`); the fuel argument only serves termination and is chosen
large enough that it never runs out (every regex match consumes at least
one character). -/
def tokenizeAux : Nat → Option Char → List Char → Except String (List Token)
  | _, _, [] => .ok []
  | 0, _, _ => .error "out of fuel"
  | n + 1, prev, s =>
    match scanOne prev s with
    | .error e => .error e
    | .ok (tok, m, rest) =>
      match tokenizeAux n m.getLast? rest with
      | .error e => .error e
      | .ok ts =>
        match tok with
        | some t => .ok (t :: ts)
        | none => .ok ts

/-- `Tokenizer(text).tokenize()`: the token list produced by repeatedly
matching the combined regex.  Note that the source returns the accumulated
`tokens` list directly; no `EOFToken` is appended. -/
def tokenize (text : String) : Except String (List Token) :=
  tokenizeAux (text.length + 1) none text.data

/-! ## Parser statement dispatch (`sql/parser.py`, `Parser.parse`) -/

/-- The three ways `Parser.parse` can react to a token list: delegate to
`SelectStatementParser`, raise `NotImplementedError`, or raise
`SQLParseError`.  The latter two are distinct Python exception types
(`NotImplementedError` is a builtin, `SQLParseError` extends
`Exception`), modelled by distinct constructors. -/
inductive ParseDispatch where
  | selectStatement
  | notImplemented (msg : String)
  | parseError (msg : String)
  deriving DecidableEq, Repr

/-- `Parser.parse`: empty token list raises `SQLParseError("Empty
Query.")`; otherwise the first token is inspected with `isinstance`:
`SelectToken` delegates to the SELECT statement parser, `InsertToken` and
`UpdateToken` raise `NotImplementedError`, anything else raises
`SQLParseError`. -/
def parserParse : List Token → ParseDispatch
  | [] => .parseError "Empty Query."
  | t :: _ =>
    match t with
    | .select _ => .selectStatement
    | .insert _ => .notImplemented "INSERT statements are not supported yet."
    | .update _ => .notImplemented "UPDATE statements are not supported yet."
    | other => .parseError ("Unsupported statement type: " ++ other.value)

/-- `isinstance(t, SelectToken)`. -/
def Token.isSelectTok : Token → Bool
  | .select _ => true
  | _ => false

/-- `isinstance(t, InsertToken)`. -/
def Token.isInsertTok : Token → Bool
  | .insert _ => true
  | _ => false

/-- `isinstance(t, UpdateToken)`. -/
def Token.isUpdateTok : Token → Bool
  | .update _ => true
  | _ => false

/-! ## Planner (`sql/planner.py`) -/

/-- The pyarrow compute kernels appearing as values of
`SQLQueryPlanner.FUNCTIONS_MAP`. -/
inductive Kernel where
  | add
  | subtract
  | multiply
  | divide
  | greater
  | less
  | greaterEqual
  | lessEqual
  | equal
  | andKernel
  | orKernel
  | invert
  | roundKernel
  deriving DecidableEq, Repr

/-- `SQLQueryPlanner.FUNCTIONS_MAP`, with exactly the keys of the source
(in source order).  A Python `dict[key]` access on a missing key raises
`KeyError`; here the map is an association list and the access is
`List.lookup`. -/
def FUNCTIONS_MAP : List (String × Kernel) :=
  [("+", .add), ("-", .subtract), ("*", .multiply), ("/", .divide),
   (">", .greater), ("<", .less), (">=", .greaterEqual), ("<=", .lessEqual),
   ("=", .equal), ("AND", .andKernel), ("OR", .orKernel), ("NOT", .invert),
   ("ROUND", .roundKernel)]

/-- Expression AST nodes as produced by the parser (`sql/expressions.py`
and the AST schema): the `unary_op` node carries fields `op` and
`operand`.  Numeric literal values are modelled as `Int`. -/
inductive Ast where
  | identifier (value : String)
  | literal (value : Int)
  | binaryOp (op : String) (left right : Ast)
  | comparison (op : String) (left right : Ast)
  | conjunction (op : String) (left right : Ast)
  | unaryOp (op : String) (operand : Ast)
  | functionCall (name : String) (args : List Ast)

/-- Errors the planner can raise while translating an expression:
`KeyError` (from a `dict[...]` access on a missing key), `ValueError`, and
`TypeError` (from an operation on `None`). -/
inductive PlanError where
  | keyError (key : String)
  | valueError (msg : String)
  | typeError (msg : String)
  deriving DecidableEq, Repr

/-- Compute-engine expressions built by the planner: `ColumnRef`,
`Literal` and `FunctionCallExpression`. -/
inductive Expr where
  | col (name : String)
  | lit (value : Int)
  | call (kernel : Kernel) (args : List Expr)

/-- The scanning loop of `_parse_identifier` over `self._open_tables`
(`{table name -> schema column names}` in insertion order): records the
first table whose schema contains the column and raises `ValueError` on a
second hit. -/
def findTableFor : Option String → List (String × List String) → String →
    Except PlanError (Option String)
  | acc, [], _ => .ok acc
  | acc, (t, cols) :: rest, v =>
    if v ∈ cols then
      match acc with
      | some _ => .error (.valueError ("Ambiguous column name: " ++ v))
      | none => findTableFor (some t) rest v
    else findTableFor acc rest v

/-- `SQLQueryPlanner._parse_identifier` on an identifier value: a dotted
name is used as-is; otherwise the open-tables map is scanned and the name
is namespaced with the single owning table, left as-is when no table
contains it, or rejected as ambiguous. -/
def parseIdentifier (openTables : List (String × List String)) (v : String) :
    Except PlanError Expr :=
  if v.contains '.' then .ok (.col v)
  else
    match findTableFor none openTables v with
    | .error e => .error e
    | .ok none => .ok (.col v)
    | .ok (some t) => .ok (.col (t ++ "." ++ v))

mutual

/-- `SQLQueryPlanner._parse_expression`.  For `conjunction`, `binary_op`
and `comparison` nodes the children are translated first and then the
operator is looked up in `FUNCTIONS_MAP` (a missing operator raises
`KeyError`, matching the Python evaluation order of
`FunctionCallExpression(self.FUNCTIONS_MAP[node["op"]], left, right)`).
For a `unary_op` node the source reads `node["child"]`, but the AST field
of a unary node is named `operand` (parser and AST schema), so the access
raises `KeyError("child")` after the operator lookup succeeds. -/
def parseExpression (openTables : List (String × List String)) :
    Ast → Except PlanError Expr
  | .conjunction op l r => parseBinaryKernel openTables op l r
  | .binaryOp op l r => parseBinaryKernel openTables op l r
  | .comparison op l r => parseBinaryKernel openTables op l r
  | .unaryOp op _ =>
    match FUNCTIONS_MAP.lookup op with
    | none => .error (.keyError op)
    | some _ => .error (.keyError "child")
  | .functionCall name args =>
    match FUNCTIONS_MAP.lookup name with
    | some k =>
      match parseExpressionList openTables args with
      | .ok es => .ok (.call k es)
      | .error e => .error e
    | none => .error (.valueError ("Unsupported function: " ++ name))
  | .identifier v => parseIdentifier openTables v
  | .literal v => .ok (.lit v)
termination_by a => sizeOf a
decreasing_by all_goals (simp_wf; try omega)

/-- Shared translation of the `conjunction`/`binary_op`/`comparison`
branch of `_parse_expression`: left child, right child, then the
`FUNCTIONS_MAP[op]` lookup. -/
def parseBinaryKernel (openTables : List (String × List String))
    (op : String) (l r : Ast) : Except PlanError Expr :=
  match parseExpression openTables l with
  | .error e => .error e
  | .ok le =>
    match parseExpression openTables r with
    | .error e => .error e
    | .ok re =>
      match FUNCTIONS_MAP.lookup op with
      | some k => .ok (.call k [le, re])
      | none => .error (.keyError op)
termination_by sizeOf l + sizeOf r
decreasing_by
  all_goals simp_wf
  · have : 0 < sizeOf r := by cases r <;> simp_arith
    omega
  · have : 0 < sizeOf l := by cases l <;> simp_arith
    omega

/-- Left-to-right translation of a function call argument list. -/
def parseExpressionList (openTables : List (String × List String)) :
    List Ast → Except PlanError (List Expr)
  | [] => .ok []
  | a :: rest =>
    match parseExpression openTables a with
    | .error e => .error e
    | .ok e =>
      match parseExpressionList openTables rest with
      | .error e2 => .error e2
      | .ok es => .ok (e :: es)
termination_by l => sizeOf l
decreasing_by all_goals (simp_wf; try omega)

end

/-- The fields stored by `PaginateNode.__init__`: `self.offset`,
`self.length` and `self.end = offset + length` (the third field is named
`endIdx` here because `end` is reserved). -/
structure PaginateNodeData where
  offset : Int
  length : Int
  endIdx : Int
  deriving DecidableEq, Repr

/-- `PaginateNode.__init__` as called by the planner with the raw AST
clause values: when either argument is Python `None`, the statement
`self.end = offset + length` raises `TypeError` (`None + int` / `int +
None` is unsupported). -/
def paginateNodeInit (offset length : Option Int) :
    Except PlanError PaginateNodeData :=
  match offset, length with
  | some o, some l => .ok ⟨o, l, o + l⟩
  | _, _ =>
    .error (.typeError "unsupported operand type(s) for +: NoneType and int")

/-- Result of `_parse_pagination`: either the child node unchanged or a
`PaginateNode` wrapping it. -/
inductive PaginationPlan where
  | child
  | paginate (node : PaginateNodeData)
  deriving DecidableEq, Repr

/-- `SQLQueryPlanner._parse_pagination(offset, limit, child)`: returns the
child when both clauses are absent, otherwise constructs
`PaginateNode(offset=offset, length=limit, child=child)` with the raw
(possibly `None`) values. -/
def parsePagination (offset limit : Option Int) :
    Except PlanError PaginationPlan :=
  match offset, limit with
  | none, none => .ok .child
  | o, l =>
    match paginateNodeInit o l with
    | .ok node => .ok (.paginate node)
    | .error e => .error e

/-! ## Paginate operator (`compute/pagination.py`, `PaginateNode.batches`) -/

/-- The per-batch loop of `PaginateNode.batches`, over an abstract row
type.  `consumed` is `consumed_rows`.  Python's
`max(0, offset - consumed_rows)` and the (always non-negative on reachable
states) `offset + length - consumed_rows` are modelled with truncated
`Nat` subtraction.  `batch.slice(a, n)` is `(b.drop a).take n`.  When
`consumed_rows >= offset + length` the generator closes the child and
breaks, so the remaining batches are not consumed. -/
def paginateBatchesAux (offset length : Nat) :
    Nat → List (List α) → List (List α)
  | _, [] => []
  | consumed, b :: bs =>
    let batchSize := b.length
    if consumed + batchSize ≤ offset then
      paginateBatchesAux offset length (consumed + batchSize) bs
    else
      let startInBatch := offset - consumed
      let remainingRows := offset + length - consumed
      let rowsInThisBatch := min (batchSize - startInBatch) remainingRows
      let emitted :=
        if 0 < rowsInThisBatch then [(b.drop startInBatch).take rowsInThisBatch]
        else []
      if offset + length ≤ consumed + batchSize then emitted
      else emitted ++ paginateBatchesAux offset length (consumed + batchSize) bs

/-- `PaginateNode(offset, length, child).batches()` on a child emitting
`batches`, as the list of emitted (sliced) batches. -/
def paginateBatches (offset length : Nat) (batches : List (List α)) :
    List (List α) :=
  paginateBatchesAux offset length 0 batches

/-! ## Sort operators (`compute/sorting.py`) -/

/-- A record-batch row, as the list of its column values (integer columns
suffice for the sorting claims). -/
abbrev Row := List Int

/-- Three-way comparison of two rows on a composite sort key given as
`(column index, descending)` pairs, mirroring how `sort_by` orders rows
under `self.sorting`: the first key with unequal values decides, with the
direction of that key. -/
def keyCmp : List (Nat × Bool) → Row → Row → Ordering
  | [], _, _ => .eq
  | (k, desc) :: ks, r1, r2 =>
    let v1 := r1.getD k 0
    let v2 := r2.getD k 0
    if v1 = v2 then keyCmp ks r1 r2
    else if desc then (if v2 < v1 then .lt else .gt)
    else (if v1 < v2 then .lt else .gt)

/-- Non-strict composite-key order on rows (the sort predicate). -/
def keyLe (sorting : List (Nat × Bool)) (r1 r2 : Row) : Prop :=
  keyCmp sorting r1 r2 ≠ .gt

instance (sorting : List (Nat × Bool)) : DecidableRel (keyLe sorting) :=
  fun r1 r2 => by unfold keyLe; infer_instance

/-- `batch.sort_by(self.sorting)` / `table.sort_by(self.sorting)`: a sort
of the rows by the composite key (the concrete algorithm is irrelevant;
an insertion sort is used so the model is executable). -/
def sortBy (sorting : List (Nat × Bool)) (rows : List Row) : List Row :=
  List.insertionSort (keyLe sorting) rows

/-- `SortNode.batches`, as the list of yielded batches for a fully
consumed output.  The source collects the child batches, and *when there
is exactly one batch* yields it sorted — and then, missing an early
return, falls through to the general path, which concatenates all batches
into one table, sorts it and yields its rows again.  The general path is
modelled as a single output batch (the source's `to_batches` chunking is
irrelevant to row content).  The empty child stream (which would make
`pa.concat_tables([])` fail) is not modelled. -/
def sortNodeBatches (sorting : List (Nat × Bool))
    (batches : List (List Row)) : List (List Row) :=
  (if batches.length = 1 then [sortBy sorting (batches.headD [])] else [])
    ++ [sortBy sorting batches.flatten]

/-- `ExternalSortKey.__lt__`: walks `zip(self.values, other.values,
self.descending_orders)` (stopping at the shortest list); equal values
continue to the next key, unequal values return `v1 > v2` for a
descending key and `v1 < v2` otherwise, and exhaustion returns `False`.
Values are nullable scalars converted with `as_py`, so a null is Python
`None`: `None == None` is `True` (nulls compare equal and continue), but
`<`/`>` between `None` and an `int` raises `TypeError`. -/
def externalSortKeyLt :
    List (Option Int) → List (Option Int) → List Bool → Except String Bool
  | v1 :: vs1, v2 :: vs2, desc :: ds =>
    if v1 = v2 then externalSortKeyLt vs1 vs2 ds
    else
      match v1, v2 with
      | some a, some b => .ok (if desc then decide (b < a) else decide (a < b))
      | _, _ =>
        .error "TypeError: comparison not supported between NoneType and int"
  | _, _, _ => .ok false

/-! ## Aggregate operator (`compute/aggregate.py`)

Batches are lists of `(key, c)` rows: the grouping key column (a composite
tuple in the multi-key case) and the aggregated column `c`.  The
aggregation map is the single `Sum` aggregation `{s: Sum(c)}` of the
specification's property. -/

section Aggregate

variable {K : Type} [DecidableEq K]

/-- Appending of a key to a first-appearance-ordered key list: kept as-is
when already present, appended at the end otherwise. -/
def insKey (ks : List K) (k : K) : List K :=
  if k ∈ ks then ks else ks ++ [k]

/-- The unique values of a column in order of first appearance, as
computed by `pc.dictionary_encode` (the dictionary array) and
`pc.unique`. -/
def uniqueVals (l : List K) : List K :=
  l.foldl insKey []

/-- `pc.sum` over the aggregated column `c` of a batch of `(key, c)`
rows (`SumAggregation.compute_chunk`). -/
def sumSnd (rows : List (K × Int)) : Int :=
  (rows.map Prod.snd).sum

/-- `chunks_data.setdefault(keyval, {})` followed by
`chunks_data[keyval].setdefault(name, []).append(partial)`: the partial is
appended to the key's list, and a fresh key is inserted at the end
(Python dictionaries preserve insertion order).  With the single
aggregation of the claims, the inner `{agg name -> [partials]}` dictionary
collapses to the partial list. -/
def addPartial : List (K × List Int) → K → Int → List (K × List Int)
  | [], k, p => [(k, [p])]
  | (k1, ps) :: rest, k, p =>
    if k1 = k then (k1, ps ++ [p]) :: rest
    else (k1, ps) :: addPartial rest k p

/-- The per-batch body of `AggregateNode.single_key_aggregation`:
dictionary-encode the key column, then for each unique key value filter
the batch to the rows carrying it (`pc.equal` on the indices plus
`pc.filter`) and record the aggregation's partial result. -/
def processBatchSingle (acc : List (K × List Int)) (batch : List (K × Int)) :
    List (K × List Int) :=
  (uniqueVals (batch.map Prod.fst)).foldl
    (fun a v => addPartial a v (sumSnd (batch.filter (fun r => r.1 = v)))) acc

/-- `AggregateNode.reduce_aggregations` with the `Sum` aggregation: each
key's partial list is reduced with `pc.sum` (`SimpleAggregation.reduce`),
producing one output row per accumulator key, in insertion order. -/
def reduceChunks (chunks : List (K × List Int)) : List (K × Int) :=
  chunks.map (fun kp => (kp.1, kp.2.sum))

/-- `AggregateNode([key], {s: Sum(c)}, child).batches()` on the single-key
path: the per-batch partial computation folded over the child batches,
followed by the reduction.  Output rows are `(key value, s)`. -/
def singleKeyAggregation (batches : List (List (K × Int))) : List (K × Int) :=
  reduceChunks (batches.foldl processBatchSingle [])

/-- Specification-side description (for comparison with
`singleKeyAggregation`, following the spec's wording): `Aggregate([key],
{s: Sum(c)}, S)` emits exactly one row per distinct value of the key
column, with `s` the sum of `c` over the rows sharing that key. -/
def specAggregateSingleKeySum (rows : List (K × Int)) : List (K × Int) :=
  (uniqueVals (rows.map Prod.fst)).map
    (fun k => (k, sumSnd (rows.filter (fun r => r.1 = k))))

/-- `batch.sort_by([(k, "ascending") for k in keys])`: the batch sorted by
the ascending composite grouping key (executable insertion sort; the
concrete algorithm is irrelevant). -/
def sortByKey [LinearOrder K] (rows : List (K × Int)) : List (K × Int) :=
  List.insertionSort (fun r1 r2 => r1.1 ≤ r2.1) rows

/-- The row scan of `multi_key_aggregation` on a sorted batch, after the
first row fixed `current_key`: rows with the current key extend the
current chunk, a key change closes the chunk, and the final chunk is
flushed at the end of the batch.  `acc` holds the current chunk's rows in
reverse. -/
def runsAux (cur : K) (acc : List (K × Int)) :
    List (K × Int) → List (K × List (K × Int))
  | [] => [(cur, acc.reverse)]
  | r :: rs =>
    if r.1 = cur then runsAux cur (r :: acc) rs
    else (cur, acc.reverse) :: runsAux r.1 [r] rs

/-- The chunks of consecutive equal keys found by the scan of
`multi_key_aggregation`; an empty batch yields no chunk (`current_key`
stays `None`). -/
def runsOf : List (K × Int) → List (K × List (K × Int))
  | [] => []
  | r :: rs => runsAux r.1 [r] rs

/-- The per-batch body of `AggregateNode.multi_key_aggregation`: sort the
batch by the grouping key, then record one partial per chunk of equal
keys under the chunk's key. -/
def processBatchMulti [LinearOrder K] (acc : List (K × List Int))
    (batch : List (K × Int)) : List (K × List Int) :=
  (runsOf (sortByKey batch)).foldl
    (fun a kc => addPartial a kc.1 (sumSnd kc.2)) acc

/-- `AggregateNode(keys, {s: Sum(c)}, child).batches()` on the multi-key
path (two or more grouping keys): `K` is the composite key tuple, ordered
componentwise by the sort. -/
def multiKeyAggregation [LinearOrder K] (batches : List (List (K × Int))) :
    List (K × Int) :=
  reduceChunks (batches.foldl processBatchMulti [])

end Aggregate

/-! ## Inner join operator (`compute/join.py`, `InnnerJoinNode.batches`)

Join inputs are rows `(key, value)`: the join key column and one payload
column per side.  The output row layout is `(key, left value, right
value)` — the right key column is skipped as redundant. -/

/-- Rows of one side carrying the given join key. -/
def countKey (rows : List (Int × Int)) (k : Int) : Nat :=
  (rows.filter (fun r => r.1 = k)).length

/-- `InnnerJoinNode.batches` on materialized children `left` and `right`:
compute the unique key values of each side (`pc.unique`), filter each side
to the rows whose key appears in the other side's unique set (`pc.is_in`),
sort both sides by their join key (`pc.sort_indices` + `take`), and
combine the columns into one record batch.  `pa.record_batch` raises
`ArrowInvalid` when the combined columns have different lengths — exactly
when the two filtered sides have different row counts. -/
def innnerJoinBatches (left right : List (Int × Int)) :
    Except String (List (Int × Int × Int)) :=
  let leftKeyValues := uniqueVals (left.map Prod.fst)
  let rightKeyValues := uniqueVals (right.map Prod.fst)
  let filteredLeft := left.filter (fun r => r.1 ∈ rightKeyValues)
  let filteredRight := right.filter (fun r => r.1 ∈ leftKeyValues)
  let sortedLeft := sortByKey filteredLeft
  let sortedRight := sortByKey filteredRight
  if sortedLeft.length = sortedRight.length then
    .ok (List.zipWith (fun l r => (l.1, l.2, r.2)) sortedLeft sortedRight)
  else .error "ArrowInvalid: Schema and number of rows must be equal"

/-! ## Proof infrastructure

Reduced views of the aggregation accumulator, used to reason about
`singleKeyAggregation` and `multiKeyAggregation`. -/

section AggregateView

variable {K : Type} [DecidableEq K]

/-- The effect of `addPartial` followed by the final reduction, on the
reduced accumulator: add the partial to the key's running sum, appending a
fresh key at the end. -/
def addVal : List (K × Int) → K → Int → List (K × Int)
  | [], k, p => [(k, p)]
  | (k1, s) :: rest, k, p =>
    if k1 = k then (k1, s + p) :: rest
    else (k1, s) :: addVal rest k p

/-- Total value recorded for a key in a reduced accumulator (the sum over
all entries carrying the key; with nodup keys, the key's entry). -/
def valAt (g : List (K × Int)) (k : K) : Int :=
  ((g.filter (fun kp => kp.1 = k)).map Prod.snd).sum

end AggregateView

/-! ## Theorems -/

/-- C1: the claim states that both sort operators emit the same multiset
of rows as their input, in particular on a single-batch stream.
`SortNode.batches` violates this: on a child stream of exactly one batch
(here the batch with rows `[2]`, `[1]` and an ascending sort on column 0)
it yields the sorted batch and then — missing an early return — also
yields the concatenated-and-sorted table, so every row is emitted twice
and the output is not a permutation of the input rows. -/
theorem sortNode_single_batch_duplicates_rows :
    (sortNodeBatches [(0, false)] [[[2], [1]]]).flatten
      = [[1], [2], [1], [2]] ∧
    ¬ (sortNodeBatches [(0, false)] [[[2], [1]]]).flatten.Perm
        ([[[2], [1]]] : List (List Row)).flatten := by
  constructor
  · rfl
  · decide

/-- C2: the claim states that the tokenizer classifies `JOIN`, `ON`,
`INNER`, `LEFT`, `RIGHT`, `FULL`, `CROSS` and `NATURAL` as keyword
tokens.  The `KEYWORD` alternation of `GENERATE_TOKEN_SPECIFICATION`
contains none of them, so each lexes as an `IDENTIFIER` token instead
(and no `JoinToken`/`JoinTypeToken`/`JoinOnToken` classes exist for the
parser to consume); a FROM clause with a join lexes into plain identifier
tokens. -/
theorem join_words_lex_as_identifiers :
    tokenize "JOIN" = .ok [.identifier "JOIN"] ∧
    tokenize "ON" = .ok [.identifier "ON"] ∧
    tokenize "INNER" = .ok [.identifier "INNER"] ∧
    tokenize "LEFT" = .ok [.identifier "LEFT"] ∧
    tokenize "RIGHT" = .ok [.identifier "RIGHT"] ∧
    tokenize "FULL" = .ok [.identifier "FULL"] ∧
    tokenize "CROSS" = .ok [.identifier "CROSS"] ∧
    tokenize "NATURAL" = .ok [.identifier "NATURAL"] ∧
    tokenize "users JOIN orders ON users.id = orders.user_id"
      = .ok [.identifier "users", .identifier "JOIN", .identifier "orders",
             .identifier "ON", .identifier "users.id", .operator "=",
             .identifier "orders.user_id"] :=
  ⟨rfl, rfl, rfl, rfl, rfl, rfl, rfl, rfl, rfl⟩

/-- C3: the claim states that every operator in
`+ - * / = < > <= >= <> != AND OR NOT` maps to a compute kernel and that
planning succeeds for `<>` and `!=`.  `FUNCTIONS_MAP` has no entry for
`<>` or `!=`, so translating a comparison with either operator raises
`KeyError`; a `NOT`/unary node additionally fails because the planner
reads the nonexistent AST field `child` instead of `operand`. -/
theorem functionsMap_missing_not_equal_operators :
    FUNCTIONS_MAP.lookup "<>" = none ∧
    FUNCTIONS_MAP.lookup "!=" = none ∧
    parseExpression [] (.comparison "<>" (.identifier "a") (.literal 1))
      = .error (.keyError "<>") ∧
    parseExpression [] (.comparison "!=" (.identifier "price") (.literal 100))
      = .error (.keyError "!=") ∧
    parseExpression [] (.unaryOp "NOT" (.identifier "a"))
      = .error (.keyError "child") := by
  refine ⟨rfl, rfl, ?_, ?_, ?_⟩ <;>
    simp [parseExpression, parseBinaryKernel, parseIdentifier, findTableFor,
      FUNCTIONS_MAP, List.lookup]

/-- C4 counterexample: the claim states that a null value orders before
any non-null value in `ExternalSortKey.__lt__`.  Comparing a null key
with a non-null key raises `TypeError` instead (Python `None < int` is
unsupported), so the comparison does not return true (null-first) — it
does not return at all. -/
theorem externalSortKeyLt_null_vs_int_raises :
    externalSortKeyLt [none] [some 0] [false]
      = .error "TypeError: comparison not supported between NoneType and int"
    ∧ externalSortKeyLt [none] [some 0] [false] ≠ .ok true :=
  ⟨rfl, fun h => nomatch h⟩

/-- C4 amended: `ExternalSortKey.__lt__` compares field-by-field: equal
values (two nulls included) move to the next key; for two unequal
non-null values the result is `(left < right) XOR descending[i]`;
comparing a null with a non-null value raises `TypeError` (no null
ordering is implemented); exhausting the keys yields `False`. -/
theorem externalSortKeyLt_fieldwise_spec :
    (∀ (v : Option Int) (vs1 vs2 : List (Option Int)) (d : Bool)
        (ds : List Bool),
      externalSortKeyLt (v :: vs1) (v :: vs2) (d :: ds)
        = externalSortKeyLt vs1 vs2 ds)
    ∧ (∀ (a b : Int) (vs1 vs2 : List (Option Int)) (d : Bool)
        (ds : List Bool), a ≠ b →
      externalSortKeyLt (some a :: vs1) (some b :: vs2) (d :: ds)
        = .ok (xor (decide (a < b)) d))
    ∧ (∀ (a : Int) (vs1 vs2 : List (Option Int)) (d : Bool) (ds : List Bool),
      externalSortKeyLt (none :: vs1) (some a :: vs2) (d :: ds)
        = .error "TypeError: comparison not supported between NoneType and int")
    ∧ (∀ (a : Int) (vs1 vs2 : List (Option Int)) (d : Bool) (ds : List Bool),
      externalSortKeyLt (some a :: vs1) (none :: vs2) (d :: ds)
        = .error "TypeError: comparison not supported between NoneType and int")
    ∧ (∀ ds : List Bool, externalSortKeyLt [] [] ds = .ok false) := by
  refine ⟨?_, ?_, ?_, ?_, ?_⟩
  · intro v vs1 vs2 d ds
    simp [externalSortKeyLt]
  · intro a b vs1 vs2 d ds h
    rcases h.lt_or_lt with h1 | h1 <;>
      cases d <;>
        simp [externalSortKeyLt, h, h1, lt_asymm h1]
  · intro a vs1 vs2 d ds
    simp [externalSortKeyLt]
  · intro a vs1 vs2 d ds
    simp [externalSortKeyLt]
  · intro ds
    cases ds <;> rfl

/-- C4 witness: the amended comparison applied to the concrete unequal
non-null keys `0` and `1` with a descending direction. -/
theorem externalSortKeyLt_fieldwise_spec_witness :
    externalSortKeyLt [some 0] [some 1] [true] = .ok false := by
  have h := externalSortKeyLt_fieldwise_spec.2.1 0 1 [] [] true [] (by decide)
  simpa using h

/-- C5: the claim states that `Paginate(offset, length, S)` emits exactly
the rows `[offset, min(offset+length, n))`.  On the first straddling
batch the source computes `rows_in_this_batch = min(batch_size -
start_in_batch, offset + length - consumed_rows)` without subtracting
`start_in_batch` from the remaining-window term, so with `offset=1`,
`length=1` and a single batch `[10, 20, 30]` it emits two rows `[20, 30]`
instead of the single row `[20]` (contradicting the operator's own
docstring example). -/
theorem paginateNode_overemits_on_straddling_batch :
    paginateBatches 1 1 [[(10 : Int), 20, 30]] = [[20, 30]] ∧
    (paginateBatches 1 1 [[(10 : Int), 20, 30]]).flatten
      ≠ (([10, 20, 30] : List Int).drop 1).take 1 :=
  ⟨rfl, by decide⟩

/-- C7: the claim states that planning a SELECT with `LIMIT` but no
`OFFSET` succeeds and yields a `PaginateNode` with the LIMIT as window
length.  `_parse_pagination` instead passes the raw `None` offset to
`PaginateNode.__init__`, whose `self.end = offset + length` raises
`TypeError`; only a query with both clauses present constructs the
node. -/
theorem parsePagination_limit_without_offset_raises :
    parsePagination none (some 10)
      = .error
          (.typeError "unsupported operand type(s) for +: NoneType and int")
    ∧ ∀ (o l : Int),
        parsePagination (some o) (some l) = .ok (.paginate ⟨o, l, o + l⟩) :=
  ⟨rfl, fun _ _ => rfl⟩

/-- C8: `Parser.parse` dispatches on the first token only: an empty token
list raises a parse error, a SELECT token delegates to the SELECT
statement parser, INSERT and UPDATE tokens raise the not-implemented
error (a constructor distinct from the parse error), and any other first
token raises a parse error naming the token value. -/
theorem parserParse_dispatch_spec :
    parserParse [] = .parseError "Empty Query."
    ∧ (∀ (t : Token) (ts ts' : List Token),
        parserParse (t :: ts) = parserParse (t :: ts'))
    ∧ (∀ (v : String) (ts : List Token),
        parserParse (.select v :: ts) = .selectStatement)
    ∧ (∀ (v : String) (ts : List Token),
        parserParse (.insert v :: ts)
          = .notImplemented "INSERT statements are not supported yet.")
    ∧ (∀ (v : String) (ts : List Token),
        parserParse (.update v :: ts)
          = .notImplemented "UPDATE statements are not supported yet.")
    ∧ (∀ (t : Token) (ts : List Token),
        t.isSelectTok = false → t.isInsertTok = false →
        t.isUpdateTok = false →
        parserParse (t :: ts)
          = .parseError ("Unsupported statement type: " ++ t.value))
    ∧ (∀ (m m' : String),
        ParseDispatch.notImplemented m ≠ ParseDispatch.parseError m') := by
  refine ⟨rfl, ?_, fun v ts => rfl, fun v ts => rfl, fun v ts => rfl, ?_, ?_⟩
  · intro t ts ts'
    cases t <;> rfl
  · intro t ts h1 h2 h3
    cases t <;>
      simp_all [parserParse, Token.isSelectTok, Token.isInsertTok,
        Token.isUpdateTok, Token.value]
  · intro m m'
    exact fun h => nomatch h

/-- C8 witness: the dispatch applied to a concrete unsupported first
token. -/
theorem parserParse_dispatch_spec_witness :
    parserParse [Token.identifier "EXPLAIN"]
      = .parseError "Unsupported statement type: EXPLAIN" := by
  have h := parserParse_dispatch_spec.2.2.2.2.2.1 (Token.identifier "EXPLAIN")
    [] rfl rfl rfl
  simpa [Token.value] using h

section AggregateProofs

variable {K : Type} [DecidableEq K]

theorem mem_insKey {ks : List K} {k x : K} :
    x ∈ insKey ks k ↔ x ∈ ks ∨ x = k := by
  unfold insKey
  split
  · rename_i h
    constructor
    · exact Or.inl
    · rintro (hx | rfl)
      · exact hx
      · exact h
  · simp

theorem nodup_insKey {ks : List K} (h : ks.Nodup) (k : K) :
    (insKey ks k).Nodup := by
  unfold insKey
  split
  · exact h
  · rename_i hk
    simp [List.nodup_append, h, hk]

theorem mem_foldl_insKey {l : List K} {ks : List K} {x : K} :
    x ∈ l.foldl insKey ks ↔ x ∈ ks ∨ x ∈ l := by
  induction l generalizing ks with
  | nil => simp
  | cons y ys ih =>
    simp only [List.foldl_cons, List.mem_cons]
    rw [ih, mem_insKey]
    tauto

theorem nodup_foldl_insKey {l : List K} {ks : List K} (h : ks.Nodup) :
    (l.foldl insKey ks).Nodup := by
  induction l generalizing ks with
  | nil => exact h
  | cons y ys ih => exact ih (nodup_insKey h y)

theorem mem_uniqueVals {l : List K} {x : K} : x ∈ uniqueVals l ↔ x ∈ l := by
  simp [uniqueVals, mem_foldl_insKey]

theorem nodup_uniqueVals (l : List K) : (uniqueVals l).Nodup :=
  nodup_foldl_insKey List.nodup_nil

theorem foldl_insKey_insKey (ks acc : List K) (y : K) :
    List.foldl insKey ks (insKey acc y)
      = insKey (List.foldl insKey ks acc) y := by
  by_cases h : y ∈ acc
  · have h2 : y ∈ List.foldl insKey ks acc := mem_foldl_insKey.mpr (Or.inr h)
    simp [insKey, h, h2]
  · simp only [insKey, if_neg h, List.foldl_append, List.foldl_cons,
      List.foldl_nil]

theorem foldl_insKey_foldl (ys : List K) (ks acc : List K) :
    List.foldl insKey ks (List.foldl insKey acc ys)
      = List.foldl insKey (List.foldl insKey ks acc) ys := by
  induction ys generalizing acc with
  | nil => rfl
  | cons y ys ih =>
    simp only [List.foldl_cons]
    rw [ih (insKey acc y), foldl_insKey_insKey]

theorem foldl_insKey_uniqueVals (ks : List K) (ys : List K) :
    List.foldl insKey ks (uniqueVals ys) = List.foldl insKey ks ys := by
  simpa [uniqueVals] using foldl_insKey_foldl ys ks []

theorem map_fst_addPartial (acc : List (K × List Int)) (k : K) (p : Int) :
    (addPartial acc k p).map Prod.fst = insKey (acc.map Prod.fst) k := by
  induction acc with
  | nil => simp [addPartial, insKey]
  | cons kp rest ih =>
    obtain ⟨k1, ps⟩ := kp
    by_cases h : k1 = k
    · subst h
      simp [addPartial, insKey]
    · by_cases h2 : k ∈ rest.map Prod.fst
      · simp [addPartial, h, ih, insKey, h2, Ne.symm h]
      · simp [addPartial, h, ih, insKey, h2, Ne.symm h]

theorem map_fst_addVal (g : List (K × Int)) (k : K) (p : Int) :
    (addVal g k p).map Prod.fst = insKey (g.map Prod.fst) k := by
  induction g with
  | nil => simp [addVal, insKey]
  | cons kp rest ih =>
    obtain ⟨k1, s⟩ := kp
    by_cases h : k1 = k
    · subst h
      simp [addVal, insKey]
    · by_cases h2 : k ∈ rest.map Prod.fst
      · simp [addVal, h, ih, insKey, h2, Ne.symm h]
      · simp [addVal, h, ih, insKey, h2, Ne.symm h]

theorem reduceChunks_nil : reduceChunks ([] : List (K × List Int)) = [] := rfl

theorem reduceChunks_cons (k : K) (ps : List Int)
    (rest : List (K × List Int)) :
    reduceChunks ((k, ps) :: rest) = (k, ps.sum) :: reduceChunks rest := rfl

theorem reduceChunks_addPartial (acc : List (K × List Int)) (k : K) (p : Int) :
    reduceChunks (addPartial acc k p) = addVal (reduceChunks acc) k p := by
  induction acc with
  | nil => simp [addPartial, addVal, reduceChunks]
  | cons kp rest ih =>
    obtain ⟨k1, ps⟩ := kp
    by_cases h : k1 = k
    · subst h
      simp [addPartial, addVal, reduceChunks]
    · simp only [addPartial, if_neg h, reduceChunks_cons, addVal, ih]
      rfl

theorem valAt_nil (k : K) : valAt ([] : List (K × Int)) k = 0 := rfl

theorem valAt_cons (a : K) (b : Int) (rest : List (K × Int)) (k : K) :
    valAt ((a, b) :: rest) k = (if a = k then b else 0) + valAt rest k := by
  by_cases h : a = k <;> simp [valAt, h]

theorem valAt_addVal (g : List (K × Int)) (k k' : K) (p : Int) :
    valAt (addVal g k p) k' = valAt g k' + (if k = k' then p else 0) := by
  induction g with
  | nil =>
    by_cases h : k = k' <;> simp [addVal, valAt_cons, valAt_nil, h]
  | cons kp rest ih =>
    obtain ⟨k1, s⟩ := kp
    by_cases h : k1 = k
    · subst h
      by_cases h2 : k1 = k' <;> simp [addVal, valAt_cons, h2] <;> ring
    · simp only [addVal, if_neg h, valAt_cons, ih]
      ring

theorem valAt_eq_zero_of_not_mem {g : List (K × Int)} {k : K}
    (h : k ∉ g.map Prod.fst) : valAt g k = 0 := by
  induction g with
  | nil => rfl
  | cons kp rest ih =>
    obtain ⟨a, b⟩ := kp
    simp only [List.map_cons, List.mem_cons, not_or] at h
    rw [valAt_cons, if_neg (fun ha => h.1 ha.symm), ih h.2, add_zero]

theorem assocExt {g1 g2 : List (K × Int)}
    (hkeys : g1.map Prod.fst = g2.map Prod.fst)
    (hnd : (g1.map Prod.fst).Nodup)
    (hval : ∀ k, valAt g1 k = valAt g2 k) : g1 = g2 := by
  induction g1 generalizing g2 with
  | nil =>
    cases g2 with
    | nil => rfl
    | cons kq rest2 => simp at hkeys
  | cons kp rest ih =>
    obtain ⟨a, b⟩ := kp
    cases g2 with
    | nil => simp at hkeys
    | cons kq rest2 =>
      obtain ⟨a2, b2⟩ := kq
      simp only [List.map_cons, List.cons.injEq] at hkeys
      obtain ⟨ha, hrest⟩ := hkeys
      subst ha
      simp only [List.map_cons, List.nodup_cons] at hnd
      have hnotin : a ∉ rest.map Prod.fst := hnd.1
      have hnotin2 : a ∉ rest2.map Prod.fst := hrest ▸ hnd.1
      have hb : b = b2 := by
        have hv := hval a
        simp [valAt_cons, valAt_eq_zero_of_not_mem hnotin,
          valAt_eq_zero_of_not_mem hnotin2] at hv
        exact hv
      subst hb
      have htails : rest = rest2 := by
        apply ih hrest hnd.2
        intro k
        by_cases hk : a = k
        · subst hk
          rw [valAt_eq_zero_of_not_mem hnotin,
            valAt_eq_zero_of_not_mem hnotin2]
        · have hv := hval k
          simp only [valAt_cons, if_neg hk] at hv
          omega
      rw [htails]

theorem map_fst_reduceChunks (chunks : List (K × List Int)) :
    (reduceChunks chunks).map Prod.fst = chunks.map Prod.fst := by
  simp [reduceChunks]

theorem sumSnd_append (l1 l2 : List (K × Int)) :
    sumSnd (l1 ++ l2) = sumSnd l1 + sumSnd l2 := by
  simp [sumSnd]

theorem sumSnd_filter_eq_zero {b : List (K × Int)} {k : K}
    (h : k ∉ b.map Prod.fst) :
    sumSnd (b.filter (fun r => r.1 = k)) = 0 := by
  have hnil : b.filter (fun r => r.1 = k) = [] := by
    rw [List.filter_eq_nil_iff]
    intro r hr
    simp only [decide_eq_true_eq]
    intro hk
    exact h (List.mem_map.mpr ⟨r, hr, hk⟩)
  simp [hnil, sumSnd]

theorem map_fst_foldl_addPartial_id (l : List K) (f : K → Int)
    (acc : List (K × List Int)) :
    ((l.foldl (fun a v => addPartial a v (f v)) acc).map Prod.fst)
      = l.foldl insKey (acc.map Prod.fst) := by
  induction l generalizing acc with
  | nil => rfl
  | cons x xs ih =>
    simp only [List.foldl_cons]
    rw [ih, map_fst_addPartial]

theorem reduceChunks_foldl_addPartial_id (l : List K) (f : K → Int)
    (acc : List (K × List Int)) :
    reduceChunks (l.foldl (fun a v => addPartial a v (f v)) acc)
      = l.foldl (fun g v => addVal g v (f v)) (reduceChunks acc) := by
  induction l generalizing acc with
  | nil => rfl
  | cons x xs ih =>
    simp only [List.foldl_cons]
    rw [ih, reduceChunks_addPartial]

theorem valAt_foldl_addVal (ks : List K) (f : K → Int) (g : List (K × Int))
    (hnd : ks.Nodup) (k : K) :
    valAt (ks.foldl (fun g2 v => addVal g2 v (f v)) g) k
      = valAt g k + (if k ∈ ks then f k else 0) := by
  induction ks generalizing g with
  | nil => simp
  | cons v vs ih =>
    simp only [List.foldl_cons]
    have hnd2 : vs.Nodup := (List.nodup_cons.mp hnd).2
    have hv : v ∉ vs := (List.nodup_cons.mp hnd).1
    rw [ih _ hnd2, valAt_addVal]
    by_cases hk : k = v
    · subst hk
      simp [hv]
    · rw [if_neg (fun h2 => hk h2.symm)]
      have hcond : (k ∈ v :: vs) ↔ k ∈ vs := by simp [List.mem_cons, hk]
      simp [hcond]

theorem map_fst_processBatchSingle (acc : List (K × List Int))
    (b : List (K × Int)) :
    (processBatchSingle acc b).map Prod.fst
      = List.foldl insKey (acc.map Prod.fst) (b.map Prod.fst) := by
  unfold processBatchSingle
  rw [map_fst_foldl_addPartial_id, foldl_insKey_uniqueVals]

theorem valAt_processBatchSingle (acc : List (K × List Int))
    (b : List (K × Int)) (k : K) :
    valAt (reduceChunks (processBatchSingle acc b)) k
      = valAt (reduceChunks acc) k + sumSnd (b.filter (fun r => r.1 = k)) := by
  unfold processBatchSingle
  rw [reduceChunks_foldl_addPartial_id,
    valAt_foldl_addVal _ _ _ (nodup_uniqueVals _)]
  by_cases h : k ∈ b.map Prod.fst
  · simp [mem_uniqueVals, h]
  · have h0 := sumSnd_filter_eq_zero h
    simp [mem_uniqueVals, h, h0]

theorem map_fst_singleAgg_fold (batches : List (List (K × Int)))
    (acc : List (K × List Int)) :
    (batches.foldl processBatchSingle acc).map Prod.fst
      = List.foldl insKey (acc.map Prod.fst)
          (batches.flatten.map Prod.fst) := by
  induction batches generalizing acc with
  | nil => simp
  | cons b bs ih =>
    simp only [List.foldl_cons, List.flatten_cons, List.map_append,
      List.foldl_append]
    rw [ih, map_fst_processBatchSingle]

theorem valAt_singleAgg_fold (batches : List (List (K × Int)))
    (acc : List (K × List Int)) (k : K) :
    valAt (reduceChunks (batches.foldl processBatchSingle acc)) k
      = valAt (reduceChunks acc) k
        + sumSnd (batches.flatten.filter (fun r => r.1 = k)) := by
  induction batches generalizing acc with
  | nil => simp [sumSnd]
  | cons b bs ih =>
    simp only [List.foldl_cons, List.flatten_cons, List.filter_append,
      sumSnd_append]
    rw [ih, valAt_processBatchSingle]
    ring

theorem map_fst_spec (rows : List (K × Int)) :
    (specAggregateSingleKeySum rows).map Prod.fst
      = uniqueVals (rows.map Prod.fst) := by
  unfold specAggregateSingleKeySum
  rw [List.map_map]
  have hid : (Prod.fst ∘ fun k : K =>
      (k, sumSnd (rows.filter (fun r => r.1 = k)))) = id := rfl
  rw [hid, List.map_id]

theorem valAt_map_graph (ks : List K) (f : K → Int) (hnd : ks.Nodup)
    (k : K) :
    valAt (ks.map (fun k2 => (k2, f k2))) k = if k ∈ ks then f k else 0 := by
  induction ks with
  | nil => simp [valAt_nil]
  | cons v vs ih =>
    simp only [List.map_cons, valAt_cons, List.nodup_cons] at *
    rw [ih hnd.2]
    by_cases hk : k = v
    · subst hk
      simp [hnd.1]
    · simp [Ne.symm hk, hk]

theorem valAt_spec (rows : List (K × Int)) (k : K) :
    valAt (specAggregateSingleKeySum rows) k
      = sumSnd (rows.filter (fun r => r.1 = k)) := by
  unfold specAggregateSingleKeySum
  rw [valAt_map_graph _ _ (nodup_uniqueVals _)]
  by_cases h : k ∈ rows.map Prod.fst
  · simp [mem_uniqueVals, h]
  · have h0 := sumSnd_filter_eq_zero h
    simp [mem_uniqueVals, h, h0]

theorem mem_map_fst_runsAux {cur : K} {acc : List (K × Int)}
    {l : List (K × Int)} {x : K} :
    x ∈ (runsAux cur acc l).map Prod.fst ↔ x = cur ∨ x ∈ l.map Prod.fst := by
  induction l generalizing cur acc with
  | nil => simp [runsAux]
  | cons r rs ih =>
    by_cases h : r.1 = cur
    · rw [runsAux, if_pos h]
      rw [ih]
      simp only [List.map_cons, List.mem_cons]
      rw [← h]
      tauto
    · rw [runsAux, if_neg h]
      simp only [List.map_cons, List.mem_cons, ih]

theorem mem_map_fst_runsOf {l : List (K × Int)} {x : K} :
    x ∈ (runsOf l).map Prod.fst ↔ x ∈ l.map Prod.fst := by
  cases l with
  | nil => simp [runsOf]
  | cons r rs =>
    rw [runsOf, mem_map_fst_runsAux]
    simp

theorem sortByKey_perm [LinearOrder K] (rows : List (K × Int)) :
    (sortByKey rows).Perm rows :=
  List.perm_insertionSort _ _

theorem map_fst_foldl_addPartial_pairs (l : List (K × List (K × Int)))
    (acc : List (K × List Int)) :
    ((l.foldl (fun a kc => addPartial a kc.1 (sumSnd kc.2)) acc).map Prod.fst)
      = l.foldl (fun ks kc => insKey ks kc.1) (acc.map Prod.fst) := by
  induction l generalizing acc with
  | nil => rfl
  | cons x xs ih =>
    simp only [List.foldl_cons]
    rw [ih, map_fst_addPartial]

theorem map_fst_processBatchMulti [LinearOrder K]
    (acc : List (K × List Int)) (b : List (K × Int)) :
    (processBatchMulti acc b).map Prod.fst
      = List.foldl insKey (acc.map Prod.fst)
          ((runsOf (sortByKey b)).map Prod.fst) := by
  unfold processBatchMulti
  rw [map_fst_foldl_addPartial_pairs, ← List.foldl_map]

theorem nodup_multiAgg_fold [LinearOrder K]
    (batches : List (List (K × Int))) (acc : List (K × List Int))
    (h : (acc.map Prod.fst).Nodup) :
    ((batches.foldl processBatchMulti acc).map Prod.fst).Nodup := by
  induction batches generalizing acc with
  | nil => exact h
  | cons b bs ih =>
    simp only [List.foldl_cons]
    apply ih
    rw [map_fst_processBatchMulti]
    exact nodup_foldl_insKey h

theorem mem_multiAgg_fold [LinearOrder K]
    (batches : List (List (K × Int))) (acc : List (K × List Int)) (x : K) :
    x ∈ (batches.foldl processBatchMulti acc).map Prod.fst
      ↔ x ∈ acc.map Prod.fst ∨ x ∈ batches.flatten.map Prod.fst := by
  induction batches generalizing acc with
  | nil => simp
  | cons b bs ih =>
    simp only [List.foldl_cons, List.flatten_cons, List.map_append,
      List.mem_append]
    rw [ih, map_fst_processBatchMulti, mem_foldl_insKey, mem_map_fst_runsOf]
    have hperm : x ∈ (sortByKey b).map Prod.fst ↔ x ∈ b.map Prod.fst :=
      ((sortByKey_perm b).map Prod.fst).mem_iff
    rw [hperm]
    tauto

end AggregateProofs

/-- C6: the aggregate operator emits exactly one output row per distinct
group-by key combination occurring in the input.  Single-key path: the
output of `AggregateNode([key], {s: Sum(c)}, S)` equals, row for row, the
specification-side description — one row per distinct key value (in first
appearance order) whose `s` is the sum of `c` over the input rows sharing
that key.  Multi-key path: the output keys are duplicate-free and are
exactly the composite keys occurring in the input. -/
theorem aggregateNode_one_row_per_distinct_key :
    (∀ {K : Type} [DecidableEq K] (batches : List (List (K × Int))),
      singleKeyAggregation batches
        = specAggregateSingleKeySum batches.flatten)
    ∧ (∀ {K : Type} [LinearOrder K] (batches : List (List (K × Int))),
      ((multiKeyAggregation batches).map Prod.fst).Nodup
      ∧ ∀ k : K, k ∈ (multiKeyAggregation batches).map Prod.fst
          ↔ k ∈ batches.flatten.map Prod.fst) := by
  constructor
  · intro K _ batches
    apply assocExt
    · rw [singleKeyAggregation, map_fst_reduceChunks, map_fst_singleAgg_fold,
        map_fst_spec]
      rfl
    · rw [singleKeyAggregation, map_fst_reduceChunks, map_fst_singleAgg_fold]
      exact nodup_foldl_insKey List.nodup_nil
    · intro k
      rw [singleKeyAggregation, valAt_singleAgg_fold, valAt_spec]
      simp [reduceChunks, valAt_nil]
  · intro K _ batches
    constructor
    · rw [multiKeyAggregation, map_fst_reduceChunks]
      exact nodup_multiAgg_fold batches [] List.nodup_nil
    · intro k
      rw [multiKeyAggregation, map_fst_reduceChunks]
      rw [mem_multiAgg_fold]
      simp

theorem countKey_cons (r : Int × Int) (rest : List (Int × Int)) (x : Int) :
    countKey (r :: rest) x = countKey rest x + (if r.1 = x then 1 else 0) := by
  unfold countKey
  by_cases h : r.1 = x <;> simp [List.filter_cons, h]

theorem length_filter_eq_sum_countKey (l : List (Int × Int)) (t : Finset Int)
    (p : (Int × Int) → Bool) (hp : ∀ r ∈ l, p r = true ↔ r.1 ∈ t) :
    (l.filter p).length = ∑ x ∈ t, countKey l x := by
  induction l with
  | nil => simp [countKey]
  | cons r rest ih =>
    have hrest : ∀ r2 ∈ rest, p r2 = true ↔ r2.1 ∈ t :=
      fun r2 h2 => hp r2 (List.mem_cons_of_mem _ h2)
    have hsplit : ∑ x ∈ t, countKey (r :: rest) x
        = (∑ x ∈ t, countKey rest x) + ∑ x ∈ t, (if r.1 = x then 1 else 0) := by
      rw [← Finset.sum_add_distrib]
      exact Finset.sum_congr rfl (fun x _ => countKey_cons r rest x)
    rw [List.filter_cons, hsplit, Finset.sum_ite_eq]
    by_cases hpr : p r = true
    · have hmem : r.1 ∈ t := (hp r (List.mem_cons_self r rest)).mp hpr
      simp [hpr, hmem, ih hrest]
    · have hmem : r.1 ∉ t := fun hmem => hpr ((hp r (List.mem_cons_self r rest)).mpr hmem)
      simp [hpr, hmem, ih hrest]

/-- C10 counterexample: the claim states that whenever a matching
join-key value has different multiplicities on the two sides the join
raises an error at output-batch construction.  On the concrete input
where key `1` occurs twice on the left and once on the right but key `2`
compensates (once on the left, twice on the right), both filtered sides
have three rows, so no error is raised: the join silently emits a
misaligned batch whose second row pairs a left key-`1` row with a right
key-`2` row. -/
theorem innnerJoin_compensating_mismatch_no_error :
    countKey [(1, 10), (1, 11), (2, 20)] 1 = 2
    ∧ countKey [(1, 100), (2, 200), (2, 201)] 1 = 1
    ∧ innnerJoinBatches [(1, 10), (1, 11), (2, 20)]
        [(1, 100), (2, 200), (2, 201)]
      = .ok [(1, 10, 100), (1, 11, 200), (2, 20, 201)] :=
  ⟨rfl, rfl, rfl⟩

/-- C10 amended: the inner join zips its filtered-and-sorted sides
row-by-row, and output-batch construction fails only when the two
filtered sides have different total row counts.  In particular, when a
join-key value matching both sides occurs with different multiplicities
and every *other* matching key occurs equally often on both sides (for
example the key appears twice on the left and once on the right), the
filtered sides have different row counts and constructing the combined
output batch raises `ArrowInvalid` instead of emitting the relational
cross-product of the duplicate matches; when per-key mismatches
compensate to equal totals, no error is raised and a misaligned batch is
emitted. -/
theorem innnerJoin_mismatched_multiplicity_raises
    (left right : List (Int × Int)) (k : Int)
    (h1 : k ∈ left.map Prod.fst) (h2 : k ∈ right.map Prod.fst)
    (h3 : countKey left k ≠ countKey right k)
    (h4 : ∀ k' ∈ left.map Prod.fst, k' ≠ k → k' ∈ right.map Prod.fst →
      countKey left k' = countKey right k') :
    innnerJoinBatches left right
      = .error "ArrowInvalid: Schema and number of rows must be equal" := by
  classical
  set t : Finset Int :=
    (left.map Prod.fst).toFinset ∩ (right.map Prod.fst).toFinset with ht
  have hL : (left.filter
        (fun r => r.1 ∈ uniqueVals (right.map Prod.fst))).length
      = ∑ x ∈ t, countKey left x := by
    apply length_filter_eq_sum_countKey
    intro r hr
    simp only [ht, decide_eq_true_eq, Finset.mem_inter, List.mem_toFinset,
      mem_uniqueVals]
    constructor
    · intro hmem
      exact ⟨List.mem_map.mpr ⟨r, hr, rfl⟩, hmem⟩
    · intro hmem
      exact hmem.2
  have hR : (right.filter
        (fun r => r.1 ∈ uniqueVals (left.map Prod.fst))).length
      = ∑ x ∈ t, countKey right x := by
    apply length_filter_eq_sum_countKey
    intro r hr
    simp only [ht, decide_eq_true_eq, Finset.mem_inter, List.mem_toFinset,
      mem_uniqueVals]
    constructor
    · intro hmem
      exact ⟨hmem, List.mem_map.mpr ⟨r, hr, rfl⟩⟩
    · intro hmem
      exact hmem.1
  have hkt : k ∈ t := by
    simp [ht, List.mem_toFinset, h1, h2]
  have hsum : ∑ x ∈ t, countKey left x ≠ ∑ x ∈ t, countKey right x := by
    rw [← Finset.add_sum_erase _ _ hkt, ← Finset.add_sum_erase _ _ hkt]
    have heq : ∑ x ∈ t.erase k, countKey left x
        = ∑ x ∈ t.erase k, countKey right x := by
      apply Finset.sum_congr rfl
      intro x hx
      obtain ⟨hxk, hxt⟩ := Finset.mem_erase.mp hx
      rw [ht, Finset.mem_inter, List.mem_toFinset, List.mem_toFinset] at hxt
      exact h4 x hxt.1 hxk hxt.2
    omega
  have hlen : ¬ ((sortByKey (left.filter
        (fun r => r.1 ∈ uniqueVals (right.map Prod.fst)))).length
      = (sortByKey (right.filter
        (fun r => r.1 ∈ uniqueVals (left.map Prod.fst)))).length) := by
    rw [(sortByKey_perm _).length_eq, (sortByKey_perm _).length_eq, hL, hR]
    exact hsum
  rw [innnerJoinBatches]
  simp only [if_neg hlen]

/-- C10 witness: a key (`1`) occurring twice on the left and once on the
right, with the only other matching key (`2`) occurring once on each
side: the join raises `ArrowInvalid`. -/
theorem innnerJoin_mismatched_multiplicity_raises_witness :
    innnerJoinBatches [(1, 10), (1, 11), (2, 20)] [(1, 100), (2, 200)]
      = .error "ArrowInvalid: Schema and number of rows must be equal" :=
  innnerJoin_mismatched_multiplicity_raises
    [(1, 10), (1, 11), (2, 20)] [(1, 100), (2, 200)] 1
    (by decide) (by decide) (by decide) (by decide)

/-- C9: the claim states that the token sequence returned by
`Tokenizer.tokenize` ends with an EOF sentinel.  The source returns the
accumulated token list without appending `EOFToken` (its own test suite
expects the sentinel): tokenizing `SELECT id FROM table WHERE age >= 18`
yields eight tokens ending in the literal `18`, not in `EOFToken`. -/
theorem tokenize_returns_no_eof_sentinel :
    tokenize "SELECT id FROM table WHERE age >= 18"
      = .ok [.select "SELECT", .identifier "id", .fromKw "FROM",
             .identifier "table", .whereKw "WHERE", .identifier "age",
             .operator ">=", .literal "18"]
    ∧ [Token.select "SELECT", .identifier "id", .fromKw "FROM",
       .identifier "table", .whereKw "WHERE", .identifier "age",
       .operator ">=", .literal "18"].getLast? ≠ some Token.eof :=
  ⟨rfl, by decide⟩

end DataPyground
